import Mathlib

/-!
Verification development for the backup lifecycle orchestrator
`rclone_backup_to_onedrive.py` (v3.2).

The Python source is shallowly embedded: filesystem and remote-tier state
are lists of file names, external effects (tar creation, rclone calls,
`os.remove`, `shutil.copy2`) are parameterised by boolean oracles giving the
outcome of each call, and the control flow (including `try/except` blocks,
which are modelled with `Except` where an uncaught exception matters) is
translated statement by statement.  the `sorted()` built-in of Python on file names is
code-point lexicographic, which we embed as an insertion sort over an
explicit lexicographic comparison on `String.data`.
-/

/-! ### Code-point lexicographic order on strings (Python string `<`) -/

/-- Strict lexicographic comparison of char lists by code point,
as Python compares strings. -/
def ltChars : List Char → List Char → Bool
  | [], [] => false
  | [], _ :: _ => true
  | _ :: _, [] => false
  | a :: as, b :: bs =>
    if a.toNat < b.toNat then true
    else if b.toNat < a.toNat then false
    else ltChars as bs

/-- Non-strict version: `a ≤ b ↔ ¬ b < a`. -/
def leChars (a b : List Char) : Bool := !(ltChars b a)

/-- Python `s1 <= s2` on strings. -/
def strLe (a b : String) : Prop := leChars a.data b.data = true

/-- Python `s1 < s2` on strings. -/
def strLt (a b : String) : Prop := ltChars a.data b.data = true

instance : DecidableRel strLe := fun _ _ => instDecidableEqBool _ _

instance : DecidableRel strLt := fun _ _ => instDecidableEqBool _ _

/-- Python `sorted(list_of_names)`. -/
def sortStr (l : List String) : List String := List.insertionSort strLe l

/-- Python `f.endswith(".tar.gz")`, computed on the character list. -/
def endsWithTgz (f : String) : Bool := f.data.reverse.take 7 == ".tar.gz".data.reverse

/-- Effect of writing file `f` into a directory listing (an rclone `copy`
or `shutil.copy2` destination overwrites an existing file of the same name,
so the listing gains at most one entry). -/
def insertFile (fs : List String) (f : String) : List String :=
  if f ∈ fs then fs else fs ++ [f]

/-! ### Calendar model (`datetime.datetime.now()` and `strftime`) -/

/-- A wall-clock instant, as the fields of a Python `datetime`. -/
structure DT where
  year : Nat
  month : Nat
  day : Nat
  hour : Nat
  minute : Nat
  second : Nat

/-- Gregorian leap-year rule. -/
def isLeap (y : Nat) : Bool := (y % 4 == 0 && y % 100 != 0) || (y % 400 == 0)

/-- Days in a non-leap year before month `m` (1-based). -/
def cumDays : Nat → Nat
  | 1 => 0
  | 2 => 31
  | 3 => 59
  | 4 => 90
  | 5 => 120
  | 6 => 151
  | 7 => 181
  | 8 => 212
  | 9 => 243
  | 10 => 273
  | 11 => 304
  | 12 => 334
  | _ => 0

/-- C `tm_yday`: zero-based day of the year. -/
def dayOfYear0 (t : DT) : Nat :=
  cumDays t.month + (if isLeap t.year && decide (3 ≤ t.month) then 1 else 0) + t.day - 1

/-- Sakamoto month offsets for the day-of-week computation. -/
def sakamotoT : Nat → Nat
  | 1 => 0
  | 2 => 3
  | 3 => 2
  | 4 => 5
  | 5 => 0
  | 6 => 3
  | 7 => 5
  | 8 => 1
  | 9 => 4
  | 10 => 6
  | 11 => 2
  | 12 => 4
  | _ => 0

/-- C `tm_wday`: day of week with Sunday = 0 (the Sakamoto algorithm). -/
def wdaySun0 (t : DT) : Nat :=
  let y := if t.month < 3 then t.year - 1 else t.year
  (y + y / 4 - y / 100 + y / 400 + sakamotoT t.month + t.day) % 7

/-- Python `datetime.weekday()`: Monday = 0 .. Sunday = 6. -/
def pyWeekday (t : DT) : Nat := (wdaySun0 t + 6) % 7

/-- Week-of-year directive of strftime (percent-U): week of the year, Sunday as first day, week 00 before
the first Sunday (glibc formula `(tm_yday + 7 - tm_wday) / 7`). -/
def weekNumberU (t : DT) : Nat := (dayOfYear0 t + 7 - wdaySun0 t) / 7

/-- Zero-padded decimal rendering of width `w` (`strftime` numeric fields). -/
def padNat (w n : Nat) : String :=
  ⟨List.replicate (w - (Nat.repr n).length) '0' ++ (Nat.repr n).data⟩

/-- Timestamp field of the generated names (strftime with year, month,
day, hour, minute, second, each zero padded). -/
def timestampStr (t : DT) : String :=
  padNat 4 t.year ++ padNat 2 t.month ++ padNat 2 t.day ++
    padNat 2 t.hour ++ padNat 2 t.minute ++ padNat 2 t.second

/-- A strictly monotone numeric key for chronological comparison of instants. -/
def dtKey (t : DT) : Nat :=
  ((((t.year * 100 + t.month) * 100 + t.day) * 100 + t.hour) * 100 + t.minute) * 100 + t.second

/-- Embeds the source function taking (period, config_name) at instant `now`
(source lines 260-272). -/
def get_backup_filename (period config_name : String) (now : DT) : String :=
  if period = "daily" then
    "daily-" ++ config_name ++ "-" ++ timestampStr now ++ ".tar.gz"
  else if period = "weekly" then
    "weekly-" ++ config_name ++ "-W" ++ padNat 2 (weekNumberU now) ++ "-" ++
      timestampStr now ++ ".tar.gz"
  else if period = "monthly" then
    "monthly-" ++ config_name ++ "-" ++ padNat 4 now.year ++ padNat 2 now.month ++ "-" ++
      timestampStr now ++ ".tar.gz"
  else
    timestampStr now ++ "-" ++ config_name ++ ".tar.gz"

/-! ### `create_tarball` (source lines 168-187)

`open` of the destination may fail (outer `except`, returns `False`); each
included path is skipped when absent, and a `PermissionError` while adding a
path is caught per path.  The archive is modelled as the list of source
paths successfully added, in iteration order. -/

/-- The `for path, should_backup in backup_paths.items()` loop body. -/
def tarballLoop (pexists permOk : String → Bool) : List (String × Bool) → List String
  | [] => []
  | (path, should_backup) :: rest =>
    if should_backup then
      if pexists path then
        if permOk path then path :: tarballLoop pexists permOk rest
        else tarballLoop pexists permOk rest
      else tarballLoop pexists permOk rest
    else tarballLoop pexists permOk rest

/-- Embeds the source function over (backup_filename, backup_paths, exclude_dir):
returns (success flag, archived paths). -/
def create_tarball (openOk : Bool) (pexists permOk : String → Bool)
    (backup_paths : List (String × Bool)) : Bool × List String :=
  if openOk then (true, tarballLoop pexists permOk backup_paths)
  else (false, [])

/-! ### `manage_local_backups` (source lines 190-207)

Deletions run in listing-sort order; a raising `os.remove` (oracle `false`)
is caught by the surrounding `except`, which ends the loop with the
deletions made so far kept. -/

/-- The deletion loop: on the first failing `os.remove` the exception
propagates to the enclosing `except` and the remaining entries survive. -/
def removeLoop (removeOk : String → Bool) : List String → List String → List String
  | [], fs => fs
  | d :: ds, fs => if removeOk d then removeLoop removeOk ds (fs.erase d) else fs

/-- Embeds the source function over (backup_dir, max_backups), acting on a
directory listing. -/
def manage_local_backups (removeOk : String → Bool) (fs : List String)
    (max_backups : Nat) : List String :=
  let local_backups := sortStr (fs.filter endsWithTgz)
  if max_backups = 0 then removeLoop removeOk local_backups fs
  else if max_backups < local_backups.length then
    removeLoop removeOk (local_backups.take (local_backups.length - max_backups)) fs
  else fs

/-! ### `manage_backups_by_count` (source lines 241-257) -/

/-- Python slice `l[:-k]`.  For `k = 0` this is `l[:0] = []`, not the whole
list. -/
def pySliceUpToNeg (l : List String) (k : Nat) : List String :=
  if k = 0 then [] else l.take (l.length - k)

/-- The remote deletion loop: each entry gets exactly one `deletefile`
attempt whose boolean result is ignored (`run_command` never raises here),
so a failure skips that entry only. -/
def deleteLoopR (delOk : String → Bool) : List String → List String → List String
  | [], tier => tier
  | d :: ds, tier => deleteLoopR delOk ds (if delOk d then tier.erase d else tier)

/-- Embeds the source function over (remote_path, backup_type,
retention_count).
`lsfOk = false` models `subprocess.CalledProcessError` from the listing,
caught by the own `except` of the function.  Returns the resulting tier
contents and the list of `deletefile` attempts in order. -/
def manage_backups_by_count (lsfOk : Bool) (delOk : String → Bool)
    (tier : List String) (retention_count : Nat) : List String × List String :=
  if lsfOk then
    let backups := sortStr tier
    if retention_count < backups.length then
      let backups_to_delete := pySliceUpToNeg backups retention_count
      (deleteLoopR delOk backups_to_delete tier, backups_to_delete)
    else (tier, [])
  else (tier, [])

/-! ### `rclone_operation` retry loop (source lines 210-238) -/

/-- Number of `run_command` attempts made by the retry loop
`for attempt in range(retry)` of `rclone_operation`, when attempt `n` (0-based) succeeds
iff `ok n`. -/
def rclone_operation_attempts (ok : Nat → Bool) : Nat → Nat → Nat
  | 0, n => n
  | Nat.succ r, n => if ok n then n + 1 else rclone_operation_attempts ok r (n + 1)

/-! ### `process_backup_config` (source lines 286-395) and `main` (398-441)

Oracles: one boolean (or per-name boolean function) per external call site.
`*_RemoveOk = false` means that `os.remove` raised; `*Copy2Ok = false`
means that `shutil.copy2` raised; `*LsfOk = false` means the listing
subprocess raised `CalledProcessError`; upload/download flags are the
boolean results of `rclone_operation`, which itself never raises. -/

/-- Per-call outcomes of the external world during one job. -/
structure Env where
  tarballOk : Bool
  dailyUploadOk : Bool
  dRetLsfOk : Bool
  dRetDelOk : String → Bool
  weeklyCopy2Ok : Bool
  weeklyUploadOk : Bool
  weeklyRemoveOk : Bool
  wRetLsfOk : Bool
  wRetDelOk : String → Bool
  mWeeklyLsfOk : Bool
  downloadOk : Bool
  monthlyCopy2Ok : Bool
  monthlyUploadOk : Bool
  monthlyRemoveOk : Bool
  mRetLsfOk : Bool
  mRetDelOk : String → Bool
  downloadedRemoveOk : Bool
  cleanupRemoveOk : Bool
  localRemoveOk : String → Bool

/-- Mutable state of one job run: the local staging directory listing and
the three remote tier directory listings. -/
structure St where
  fs : List String
  daily : List String
  weekly : List String
  monthly : List String

/-- Observable result of `process_backup_config`: final state, whether the
weekly/monthly rotation blocks were entered, the weekly-tier listing taken
by the monthly block (if any), the `FINAL_STATUS` values written, and
whether an uncaught exception escaped the function. -/
structure JobResult where
  st : St
  weeklyRan : Bool
  monthlyRan : Bool
  monthlyListing : Option (List String)
  outcomes : List String
  crashed : Bool

/-- Source lines 315-325: build the daily tarball, upload it, and on upload
success apply daily-count retention.  Returns the state and the `status`
variable (`true` = "success"). -/
def dailyPhase (env : Env) (dName : String) (dRet : Nat) (s : St) : St × Bool :=
  if env.tarballOk then
    let s1 : St := { s with fs := insertFile s.fs dName }
    if env.dailyUploadOk then
      let s2 : St := { s1 with daily := insertFile s1.daily dName }
      ({ s2 with daily := (manage_backups_by_count env.dRetLsfOk env.dRetDelOk s2.daily dRet).1 },
        true)
    else (s1, false)
  else (s, false)

/-- Source lines 333-346: the weekly rotation `try` block, with the
`except` applied: when a call raises (oracle `false` on `shutil.copy2` or
`os.remove`), the remaining statements of the block are skipped and the
state reached so far is kept. -/
def weeklyStep (env : Env) (wName : String) (wRet : Nat) (s : St) : St :=
  if env.weeklyCopy2Ok then
    let s1 : St := { s with fs := insertFile s.fs wName }
    if env.weeklyUploadOk then
      let s2 : St := { s1 with weekly := insertFile s1.weekly wName }
      if wName ∈ s2.fs then
        if env.weeklyRemoveOk then
          { s2 with
            fs := s2.fs.erase wName,
            weekly := (manage_backups_by_count env.wRetLsfOk env.wRetDelOk s2.weekly wRet).1 }
        else s2
      else
        { s2 with weekly := (manage_backups_by_count env.wRetLsfOk env.wRetDelOk s2.weekly wRet).1 }
    else s1
  else s

/-- Source lines 380-382: `if os.path.exists(downloaded): os.remove(...)`
at the end of the monthly block (a raising remove is caught by the monthly
`except` and simply ends the block). -/
def cleanupDownloaded (env : Env) (latest : String) (s : St) : St :=
  if latest ∈ s.fs then
    if env.downloadedRemoveOk then { s with fs := s.fs.erase latest } else s
  else s

/-- Source lines 360-382: body of the monthly rotation after the weekly-tier
listing succeeded, given that listing, with the monthly `except` applied:
a raising call (oracle `false`) skips the rest of the block. -/
def monthlyCore (env : Env) (mName : String) (mRet : Nat) (listing : List String)
    (s : St) : St :=
  match listing.getLast? with
  | none => s
  | some latest =>
    let s1 : St := if env.downloadOk then { s with fs := insertFile s.fs latest } else s
    if latest ∈ s1.fs then
      if env.monthlyCopy2Ok then
        let s2 : St := { s1 with fs := insertFile s1.fs mName }
        if env.monthlyUploadOk then
          let s3 : St := { s2 with monthly := insertFile s2.monthly mName }
          if mName ∈ s3.fs then
            if env.monthlyRemoveOk then
              cleanupDownloaded env latest
                { s3 with
                  fs := s3.fs.erase mName,
                  monthly :=
                    (manage_backups_by_count env.mRetLsfOk env.mRetDelOk s3.monthly mRet).1 }
            else s3
          else
            cleanupDownloaded env latest
              { s3 with
                monthly :=
                  (manage_backups_by_count env.mRetLsfOk env.mRetDelOk s3.monthly mRet).1 }
        else cleanupDownloaded env latest s2
      else s1
    else s1

/-- Source lines 349-386: the monthly rotation block, including the
weekly-tier listing (`lsf`, whose `CalledProcessError` is caught).  Also
returns the listing taken, when the `lsf` succeeded. -/
def monthlyStep (env : Env) (mName : String) (mRet : Nat) (s : St) :
    St × Option (List String) :=
  if env.mWeeklyLsfOk then
    let listing := sortStr s.weekly
    (monthlyCore env mName mRet listing s, some listing)
  else (s, none)

/-- Source lines 304-306: local staging-directory retention applied at the
start of the job, before the new daily tarball exists. -/
def preDaily (env : Env) (maxLocal : Nat) (s0 : St) : St :=
  { s0 with fs := manage_local_backups env.localRemoveOk s0.fs maxLocal }

/-- State after the daily phase and the (conditional) weekly rotation. -/
def afterWeekly (env : Env) (now : DT) (cfg : String) (maxLocal dRet wRet : Nat)
    (s0 : St) : St :=
  let p := dailyPhase env (get_backup_filename "daily" cfg now) dRet (preDaily env maxLocal s0)
  if p.2 && (pyWeekday now == 6)
  then weeklyStep env (get_backup_filename "weekly" cfg now) wRet p.1
  else p.1

/-- State and recorded weekly-tier listing after the (conditional) monthly
rotation. -/
def afterMonthly (env : Env) (now : DT) (cfg : String) (maxLocal dRet wRet mRet : Nat)
    (s0 : St) : St × Option (List String) :=
  if (dailyPhase env (get_backup_filename "daily" cfg now) dRet (preDaily env maxLocal s0)).2
      && (now.day == 1)
  then monthlyStep env (get_backup_filename "monthly" cfg now) mRet
    (afterWeekly env now cfg maxLocal dRet wRet s0)
  else (afterWeekly env now cfg maxLocal dRet wRet s0, none)

/-- Embeds the source function processing one job (config, config_filename).
Note: the final `os.remove` of the daily tarball (source lines 389-392) is
outside every `try` block, so a raising remove there (`cleanupRemoveOk =
false`) escapes the function before `write_final_status` runs. -/
def process_backup_config (env : Env) (now : DT) (cfg : String)
    (maxLocal dRet wRet mRet : Nat) (s0 : St) : JobResult :=
  let dName := get_backup_filename "daily" cfg now
  let p := dailyPhase env dName dRet (preDaily env maxLocal s0)
  let pm := afterMonthly env now cfg maxLocal dRet wRet mRet s0
  let fin : St × List String × Bool :=
    if p.2 then
      if dName ∈ pm.1.fs then
        if env.cleanupRemoveOk then
          ({ pm.1 with fs := pm.1.fs.erase dName }, ["success"], false)
        else (pm.1, [], true)
      else (pm.1, ["success"], false)
    else (pm.1, ["failure"], false)
  { st := fin.1,
    weeklyRan := p.2 && (pyWeekday now == 6),
    monthlyRan := p.2 && (now.day == 1),
    monthlyListing := pm.2,
    outcomes := fin.2.1,
    crashed := fin.2.2 }

/-- One entry of the job list of `main`: `valid = false` models a configuration
that fails `load_yaml_config` validation. -/
structure JobSpec where
  valid : Bool
  env : Env
  now : DT
  cfg : String
  maxLocal : Nat
  dRet : Nat
  wRet : Nat
  mRet : Nat
  start : St

/-- The loop of `main` over configurations (source lines 427-441): an invalid
configuration yields an immediate failure status and the loop continues;
`process_backup_config` is called with no surrounding `try`, so an
exception escaping it aborts the whole run.  Returns the per-job outcome
lists for the jobs reached and the number of jobs reached. -/
def runJobs : List JobSpec → List (List String) × Nat
  | [] => ([], 0)
  | j :: rest =>
    if j.valid then
      let r := process_backup_config j.env j.now j.cfg j.maxLocal j.dRet j.wRet j.mRet j.start
      if r.crashed then ([r.outcomes], 1)
      else
        let q := runJobs rest
        (r.outcomes :: q.1, q.2 + 1)
    else
      let q := runJobs rest
      (["failure"] :: q.1, q.2 + 1)

/-! ### Concrete fixtures for witnesses and counterexamples -/

/-- An environment in which every external call succeeds. -/
def allOkEnv : Env where
  tarballOk := true
  dailyUploadOk := true
  dRetLsfOk := true
  dRetDelOk := fun _ => true
  weeklyCopy2Ok := true
  weeklyUploadOk := true
  weeklyRemoveOk := true
  wRetLsfOk := true
  wRetDelOk := fun _ => true
  mWeeklyLsfOk := true
  downloadOk := true
  monthlyCopy2Ok := true
  monthlyUploadOk := true
  monthlyRemoveOk := true
  mRetLsfOk := true
  mRetDelOk := fun _ => true
  downloadedRemoveOk := true
  cleanupRemoveOk := true
  localRemoveOk := fun _ => true

/-- Empty local staging directory and empty remote tiers. -/
def emptySt : St where
  fs := []
  daily := []
  weekly := []
  monthly := []

/-- Sunday 2025-10-12, 03:00:00 (not the 1st of the month). -/
def dtSunday : DT := ⟨2025, 10, 12, 3, 0, 0⟩

/-- Tuesday 2025-10-14, 04:05:06 (neither Sunday nor the 1st). -/
def dtTuesday : DT := ⟨2025, 10, 14, 4, 5, 6⟩

/-- Tuesday 2026-12-01, 09:00:00 (the 1st of the month, not a Sunday). -/
def dtDec1 : DT := ⟨2026, 12, 1, 9, 0, 0⟩

/-! ### Order lemmas for the embedded string comparison -/

theorem ltChars_irrefl (l : List Char) : ltChars l l = false := by
  induction l with
  | nil => rfl
  | cons a as ih => simp [ltChars, ih]

theorem ltChars_asymm : ∀ {a b : List Char}, ltChars a b = true → ltChars b a = false
  | [], [], h => by simp [ltChars] at h
  | [], _ :: _, _ => by simp [ltChars]
  | _ :: _, [], h => by simp [ltChars] at h
  | a :: as, b :: bs, h => by
    simp only [ltChars] at h ⊢
    by_cases h1 : a.toNat < b.toNat
    · have h2 : ¬ b.toNat < a.toNat := by omega
      simp [h1, h2]
    · by_cases h2 : b.toNat < a.toNat
      · simp [h1, h2] at h
      · simp only [h1, h2, if_false] at h ⊢
        exact ltChars_asymm h

theorem strLe_of_strLt {a b : String} (h : strLt a b) : strLe a b := by
  unfold strLt at h
  unfold strLe leChars
  simp [ltChars_asymm h]

theorem strLt_ne {a b : String} (h : strLt a b) : a ≠ b := by
  intro he
  subst he
  unfold strLt at h
  simp [ltChars_irrefl] at h

theorem sorted_le_of_sorted_lt {l : List String} (h : List.Sorted strLt l) :
    List.Sorted strLe l :=
  h.imp fun hab => strLe_of_strLt hab

theorem nodup_of_sorted_lt {l : List String} (h : List.Sorted strLt l) : l.Nodup :=
  h.imp fun hab => strLt_ne hab

/-! ### Lemmas about `sortStr` (Python `sorted`) -/

theorem sortStr_perm (l : List String) : List.Perm (sortStr l) l :=
  List.perm_insertionSort strLe l

theorem count_sortStr (a : String) (l : List String) : (sortStr l).count a = l.count a :=
  (sortStr_perm l).count_eq a

theorem mem_sortStr {a : String} {l : List String} : a ∈ sortStr l ↔ a ∈ l :=
  (sortStr_perm l).mem_iff

theorem length_sortStr (l : List String) : (sortStr l).length = l.length :=
  (sortStr_perm l).length_eq

theorem sortStr_eq_of_sorted {l : List String} (h : List.Sorted strLt l) : sortStr l = l :=
  List.Sorted.insertionSort_eq (sorted_le_of_sorted_lt h)

/-! ### Counting lemmas for the deletion loops -/

theorem count_filter_eq (p : String → Bool) (a : String) (l : List String) :
    (l.filter p).count a = if p a then l.count a else 0 := by
  induction l with
  | nil => simp
  | cons x xs ih =>
    by_cases hx : p x
    · by_cases hax : x = a
      · subst hax
        simp [List.filter, hx, List.count_cons, ih]
      · simp [List.filter, hx, List.count_cons, ih, hax]
    · by_cases hax : x = a
      · subst hax
        simp [List.filter, hx, List.count_cons, ih]
      · simp [List.filter, hx, List.count_cons, ih, hax]

theorem count_take_le (l : List String) (k : Nat) (a : String) :
    (l.take k).count a ≤ l.count a := by
  conv_rhs => rw [← List.take_append_drop k l]
  rw [List.count_append]
  omega

theorem eq_nil_of_count_zero {l : List String} (h : ∀ a, l.count a = 0) : l = [] := by
  cases l with
  | nil => rfl
  | cons x t =>
    have := h x
    simp [List.count_cons] at this

theorem removeLoop_true_count (ds : List String) (fs : List String) (a : String) :
    (removeLoop (fun _ => true) ds fs).count a = fs.count a - ds.count a := by
  induction ds generalizing fs with
  | nil => simp [removeLoop]
  | cons d ds ih =>
    simp only [removeLoop, if_true]
    rw [ih, List.count_erase]
    by_cases hda : d = a
    · subst hda
      simp [List.count_cons]
      omega
    · simp [List.count_cons, hda, Ne.symm hda]

theorem removeLoop_count_le (ok : String → Bool) (ds : List String) (fs : List String)
    (a : String) : (removeLoop ok ds fs).count a ≤ fs.count a := by
  induction ds generalizing fs with
  | nil => simp [removeLoop]
  | cons d ds ih =>
    simp only [removeLoop]
    by_cases hok : ok d
    · simp only [hok, if_true]
      calc (removeLoop ok ds (fs.erase d)).count a ≤ (fs.erase d).count a := ih _
        _ ≤ fs.count a := by rw [List.count_erase]; omega
    · simp [hok]

theorem removeLoop_count_eq_of_not_mem (ok : String → Bool) (ds : List String)
    (fs : List String) (a : String) (ha : a ∉ ds) :
    (removeLoop ok ds fs).count a = fs.count a := by
  induction ds generalizing fs with
  | nil => simp [removeLoop]
  | cons d ds ih =>
    have hda : d ≠ a := fun he => ha (he ▸ List.mem_cons_self d ds)
    have ha2 : a ∉ ds := fun hm => ha (List.mem_cons_of_mem d hm)
    simp only [removeLoop]
    by_cases hok : ok d
    · simp only [hok, if_true]
      rw [ih _ ha2, List.count_erase]
      simp [hda]
    · simp [hok]

theorem filter_removeLoop_true (p : String → Bool) (ds : List String) (fs : List String)
    (hds : ∀ d ∈ ds, p d = true) :
    (removeLoop (fun _ => true) ds fs).filter p
      = removeLoop (fun _ => true) ds (fs.filter p) := by
  induction ds generalizing fs with
  | nil => simp [removeLoop]
  | cons d ds ih =>
    simp only [removeLoop, if_true]
    rw [ih _ fun x hx => hds x (List.mem_cons_of_mem d hx), List.erase_filter]

theorem removeLoop_true_length (ds : List String) (fs : List String)
    (h : ∀ a, ds.count a ≤ fs.count a) :
    (removeLoop (fun _ => true) ds fs).length = fs.length - ds.length := by
  induction ds generalizing fs with
  | nil => simp [removeLoop]
  | cons d ds ih =>
    have hdm : d ∈ fs := by
      have := h d
      simp [List.count_cons] at this
      exact List.count_pos_iff.mp (by omega)
    have hlen : (fs.erase d).length + 1 = fs.length := List.length_erase_add_one hdm
    simp only [removeLoop, if_true]
    rw [ih]
    · simp only [List.length_cons]
      omega
    · intro a
      have := h a
      rw [List.count_erase]
      by_cases hda : d = a
      · subst hda
        simp [List.count_cons] at this ⊢
        omega
      · simp [List.count_cons, hda, Ne.symm hda] at this ⊢
        omega

theorem mem_removeLoop_sub {ok : String → Bool} {ds fs : List String} {a : String}
    (h : a ∈ removeLoop ok ds fs) : a ∈ fs := by
  induction ds generalizing fs with
  | nil => simpa [removeLoop] using h
  | cons d ds ih =>
    simp only [removeLoop] at h
    by_cases hok : ok d
    · rw [if_pos hok] at h
      exact List.mem_of_mem_erase (ih h)
    · rwa [if_neg hok] at h

/-! ### Lemmas for the remote deletion loop and small state helpers -/

theorem deleteLoopR_true_take (l : List String) (m : Nat) :
    deleteLoopR (fun _ => true) (l.take m) l = l.drop m := by
  induction l generalizing m with
  | nil => cases m <;> simp [deleteLoopR]
  | cons a l ih =>
    cases m with
    | zero => simp [deleteLoopR]
    | succ m =>
      simp only [List.take_succ_cons, List.drop_succ_cons, deleteLoopR, if_true,
        List.erase_cons_head]
      exact ih m

theorem mem_deleteLoopR (delOk : String → Bool) (ds : List String) (fs : List String)
    (hnd : fs.Nodup) (a : String) :
    a ∈ deleteLoopR delOk ds fs ↔ (a ∈ fs ∧ (a ∉ ds ∨ delOk a = false)) := by
  induction ds generalizing fs with
  | nil => simp [deleteLoopR]
  | cons d ds ih =>
    simp only [deleteLoopR]
    by_cases hok : delOk d
    · rw [if_pos hok, ih _ (hnd.erase d), List.Nodup.mem_erase_iff hnd]
      by_cases had : a = d
      · subst had
        simp [hok]
      · simp only [List.mem_cons, had, false_or, ne_eq, not_false_iff, true_and]
        try tauto
    · rw [if_neg hok, ih _ hnd]
      by_cases had : a = d
      · subst had
        have : delOk a = false := by simpa using hok
        simp [this]
      · simp only [List.mem_cons, had, false_or]

theorem mem_insertFile {fs : List String} {f a : String} :
    a ∈ insertFile fs f ↔ (a ∈ fs ∨ a = f) := by
  unfold insertFile
  by_cases h : f ∈ fs
  · rw [if_pos h]
    constructor
    · exact Or.inl
    · rintro (ha | ha)
      · exact ha
      · exact ha ▸ h
  · rw [if_neg h]
    simp [List.mem_append]

theorem mem_manage_local_sub {ok : String → Bool} {fs : List String} {M : Nat} {a : String}
    (h : a ∈ manage_local_backups ok fs M) : a ∈ fs := by
  simp only [manage_local_backups] at h
  split_ifs at h
  · exact mem_removeLoop_sub h
  · exact mem_removeLoop_sub h
  · exact h

/-! ### Generated filenames of the three tiers are pairwise distinguishable -/

theorem gbf_daily_ne_monthly (c : String) (t : DT) :
    get_backup_filename "daily" c t ≠ get_backup_filename "monthly" c t := by
  intro h
  have e1 : get_backup_filename "daily" c t
      = "daily-" ++ c ++ "-" ++ timestampStr t ++ ".tar.gz" := rfl
  have e2 : get_backup_filename "monthly" c t
      = "monthly-" ++ c ++ "-" ++ padNat 4 t.year ++ padNat 2 t.month ++ "-" ++
          timestampStr t ++ ".tar.gz" := rfl
  rw [e1, e2] at h
  have h2 := congrArg String.data h
  simp only [String.data_append] at h2
  simp [List.cons_append] at h2

theorem gbf_weekly_ne_monthly (c : String) (t : DT) :
    get_backup_filename "weekly" c t ≠ get_backup_filename "monthly" c t := by
  intro h
  have e1 : get_backup_filename "weekly" c t
      = "weekly-" ++ c ++ "-W" ++ padNat 2 (weekNumberU t) ++ "-" ++
          timestampStr t ++ ".tar.gz" := rfl
  have e2 : get_backup_filename "monthly" c t
      = "monthly-" ++ c ++ "-" ++ padNat 4 t.year ++ padNat 2 t.month ++ "-" ++
          timestampStr t ++ ".tar.gz" := rfl
  rw [e1, e2] at h
  have h2 := congrArg String.data h
  simp only [String.data_append] at h2
  simp [List.cons_append] at h2

/-! ### Structural lemmas about the job phases -/

theorem dailyPhase_snd (env : Env) (dName : String) (dRet : Nat) (s : St) :
    (dailyPhase env dName dRet s).2 = (env.tarballOk && env.dailyUploadOk) := by
  unfold dailyPhase
  by_cases h1 : env.tarballOk
  · by_cases h2 : env.dailyUploadOk
    · simp [h1, h2]
    · simp [h1, h2]
  · simp [h1]

theorem dailyPhase_monthly (env : Env) (dName : String) (dRet : Nat) (s : St) :
    (dailyPhase env dName dRet s).1.monthly = s.monthly := by
  unfold dailyPhase
  split_ifs <;> rfl

theorem mem_dailyPhase_fs {env : Env} {dName : String} {dRet : Nat} {s : St} {a : String}
    (h : a ∈ (dailyPhase env dName dRet s).1.fs) : a ∈ s.fs ∨ a = dName := by
  unfold dailyPhase at h
  split_ifs at h <;> first
    | exact mem_insertFile.mp h
    | exact Or.inl h

theorem weeklyStep_monthly (env : Env) (wName : String) (wRet : Nat) (s : St) :
    (weeklyStep env wName wRet s).monthly = s.monthly := by
  simp only [weeklyStep]
  split_ifs <;> rfl

theorem mem_weeklyStep_fs {env : Env} {wName : String} {wRet : Nat} {s : St} {a : String}
    (h : a ∈ (weeklyStep env wName wRet s).fs) : a ∈ s.fs ∨ a = wName := by
  simp only [weeklyStep] at h
  split_ifs at h <;>
    first
      | exact Or.inl h
      | exact mem_insertFile.mp h
      | exact mem_insertFile.mp (List.mem_of_mem_erase h)

theorem monthlyCore_nil (env : Env) (mName : String) (mRet : Nat) (s : St) :
    monthlyCore env mName mRet [] s = s := rfl

/-! ### Lemmas about the archive-builder loop -/

theorem mem_tarballLoop (pexists permOk : String → Bool) (paths : List (String × Bool))
    (q : String) (hin : (q, true) ∈ paths) (he : pexists q = true) (hp : permOk q = true) :
    q ∈ tarballLoop pexists permOk paths := by
  induction paths with
  | nil => simp at hin
  | cons pb rest ih =>
    rcases pb with ⟨p, b⟩
    rcases List.mem_cons.mp hin with h | h
    · injection h with h1 h2
      subst h1
      simp [tarballLoop, ← h2, he, hp]
    · have hq := ih h
      simp only [tarballLoop]
      split_ifs <;> simp [hq]

theorem of_mem_tarballLoop (pexists permOk : String → Bool) (paths : List (String × Bool))
    (q : String) (h : q ∈ tarballLoop pexists permOk paths) :
    pexists q = true ∧ permOk q = true ∧ (q, true) ∈ paths := by
  induction paths with
  | nil => simp [tarballLoop] at h
  | cons pb rest ih =>
    rcases pb with ⟨p, b⟩
    simp only [tarballLoop] at h
    split_ifs at h with hb hpe hpo
    · rcases List.mem_cons.mp h with h1 | h1
      · subst h1
        exact ⟨hpe, hpo, List.mem_cons.mpr (Or.inl (by rw [hb]))⟩
      · have hrec := ih h1
        exact ⟨hrec.1, hrec.2.1, List.mem_cons_of_mem _ hrec.2.2⟩
    · have hrec := ih h
      exact ⟨hrec.1, hrec.2.1, List.mem_cons_of_mem _ hrec.2.2⟩
    · have hrec := ih h
      exact ⟨hrec.1, hrec.2.1, List.mem_cons_of_mem _ hrec.2.2⟩
    · have hrec := ih h
      exact ⟨hrec.1, hrec.2.1, List.mem_cons_of_mem _ hrec.2.2⟩

/-! ### Claim C5 -/

/-- Claim C5: the spec requires that, per tier and fixed job name, generated
filenames sort lexicographically in chronological order.  The code violates
this for the weekly tier across a year boundary: the `%U` week number is
placed before the timestamp, so the weekly artifact of Sunday 2025-01-05
(`W01`) sorts lexicographically before the older artifact of Sunday
2024-12-29 (`W52`).  This theorem evaluates `get_backup_filename` at that
failing input: the chronologically later instant yields the
lexicographically smaller name. -/
theorem C5_weekly_name_order_violation :
    dtKey ⟨2024, 12, 29, 12, 0, 0⟩ < dtKey ⟨2025, 1, 5, 12, 0, 0⟩
    ∧ get_backup_filename "weekly" "config1" ⟨2024, 12, 29, 12, 0, 0⟩
        = "weekly-config1-W52-20241229120000.tar.gz"
    ∧ get_backup_filename "weekly" "config1" ⟨2025, 1, 5, 12, 0, 0⟩
        = "weekly-config1-W01-20250105120000.tar.gz"
    ∧ strLt (get_backup_filename "weekly" "config1" ⟨2025, 1, 5, 12, 0, 0⟩)
        (get_backup_filename "weekly" "config1" ⟨2024, 12, 29, 12, 0, 0⟩) :=
  ⟨by decide, by decide, by decide, by decide⟩

/-! ### Claim C2 -/

/-- Claim C2 counterexample: with retain count `K = 0` the claim fails.
in Python `backups[:-0]` is the empty slice, so the pass deletes nothing:
on a one-entry tier, 1 entry remains while the claim demands
`min(0, 1) = 0`. -/
theorem C2_counterexample :
    (manage_backups_by_count true (fun _ => true) ["a.tar.gz"] 0).1 = ["a.tar.gz"]
    ∧ ¬ ((manage_backups_by_count true (fun _ => true) ["a.tar.gz"] 0).1.length
          = min 0 ["a.tar.gz"].length) :=
  ⟨by decide, by decide⟩

/-- Claim C2 (amended: for retain count `K ≥ 1`): on a tier directory whose
listing succeeds, whose entries are strictly sorted (lexicographic =
chronological), and whose per-entry deletions succeed, one pass of
count-based retention leaves exactly the `K` lexicographically largest
entries — the sorted suffix, `min K n` many — and issues one `deletefile`
attempt for each other entry, in oldest-first order. -/
theorem C2_count_retention (tier : List String) (K : Nat)
    (hs : List.Sorted strLt tier) (hK : 1 ≤ K) :
    manage_backups_by_count true (fun _ => true) tier K
      = (tier.drop (tier.length - K), tier.take (tier.length - K))
    ∧ (tier.drop (tier.length - K)).length = min K tier.length := by
  have hst : sortStr tier = tier := sortStr_eq_of_sorted hs
  constructor
  · simp only [manage_backups_by_count, if_true, hst]
    by_cases h : K < tier.length
    · rw [if_pos h]
      simp only [pySliceUpToNeg, if_neg (by omega : ¬ K = 0)]
      rw [deleteLoopR_true_take]
    · rw [if_neg h]
      have h0 : tier.length - K = 0 := by omega
      rw [h0]
      simp
  · rw [List.length_drop]
    omega

/-- Witness for the amended C2 at a concrete sorted two-entry tier with
`K = 1`. -/
theorem C2_witness :
    manage_backups_by_count true (fun _ => true) ["a.tar.gz", "b.tar.gz"] 1
      = (["a.tar.gz", "b.tar.gz"].drop (["a.tar.gz", "b.tar.gz"].length - 1),
         ["a.tar.gz", "b.tar.gz"].take (["a.tar.gz", "b.tar.gz"].length - 1))
    ∧ (["a.tar.gz", "b.tar.gz"].drop (["a.tar.gz", "b.tar.gz"].length - 1)).length
        = min 1 ["a.tar.gz", "b.tar.gz"].length :=
  C2_count_retention ["a.tar.gz", "b.tar.gz"] 1 (by decide) (by decide)

/-! ### Claim C8 -/

/-- Claim C8: when the destination archive can be opened, and the path set
contains an included path that does not exist as well as an included path
that raises a permission error during enumeration, `create_tarball` still
returns success, its archive contains every included path that exists and
is accessible, and only the offending paths are skipped (nothing is raised
to the caller: the function totalises all per-path errors). -/
theorem C8_archive_robustness (pexists permOk : String → Bool)
    (paths : List (String × Bool))
    (_hmiss : ∃ pb ∈ paths, pb.2 = true ∧ pexists pb.1 = false)
    (_hperm : ∃ pb ∈ paths, pb.2 = true ∧ pexists pb.1 = true ∧ permOk pb.1 = false) :
    (create_tarball true pexists permOk paths).1 = true
    ∧ (∀ q b, (q, b) ∈ paths → b = true → pexists q = true → permOk q = true →
        q ∈ (create_tarball true pexists permOk paths).2)
    ∧ (∀ q, q ∈ (create_tarball true pexists permOk paths).2 →
        pexists q = true ∧ permOk q = true ∧ (q, true) ∈ paths) := by
  refine ⟨rfl, ?_, ?_⟩
  · intro q b hin hb he hp
    subst hb
    exact mem_tarballLoop pexists permOk paths q hin he hp
  · intro q hq
    exact of_mem_tarballLoop pexists permOk paths q hq

/-- Witness for C8: a path set with one good path, one missing path, one
permission-denied path and one excluded path. -/
theorem C8_witness :
    (create_tarball true (fun q => !(q == "/gone")) (fun q => !(q == "/secret"))
        [("/etc", true), ("/gone", true), ("/secret", true), ("/skip", false)]).1 = true
    ∧ "/etc" ∈ (create_tarball true (fun q => !(q == "/gone")) (fun q => !(q == "/secret"))
        [("/etc", true), ("/gone", true), ("/secret", true), ("/skip", false)]).2 := by
  have h := C8_archive_robustness (fun q => !(q == "/gone")) (fun q => !(q == "/secret"))
    [("/etc", true), ("/gone", true), ("/secret", true), ("/skip", false)]
    ⟨("/gone", true), by decide⟩ ⟨("/secret", true), by decide⟩
  exact ⟨h.1, h.2.1 "/etc" true (by decide) (by decide) (by decide) (by decide)⟩

/-! ### Claim C10 -/

/-- Claim C10: for every staging-directory state, every maximum count `M`
(including 0), and every per-deletion outcome, the Local Retention Enforcer
deletes only files ending in `.tar.gz` (per-name multiplicities never
increase) and leaves every file not ending in `.tar.gz` untouched; the
function is total (the source wraps its whole body in `try/except`, so no
exception reaches the caller). -/
theorem C10_local_retention_frame (removeOk : String → Bool) (fs : List String) (M : Nat)
    (a : String) :
    (endsWithTgz a = false →
      (manage_local_backups removeOk fs M).count a = fs.count a)
    ∧ (manage_local_backups removeOk fs M).count a ≤ fs.count a := by
  constructor
  · intro ha
    simp only [manage_local_backups]
    split_ifs
    · apply removeLoop_count_eq_of_not_mem
      intro hmem
      have hfa := List.of_mem_filter (mem_sortStr.mp hmem)
      simp [ha] at hfa
    · apply removeLoop_count_eq_of_not_mem
      intro hmem
      have hfa := List.of_mem_filter (mem_sortStr.mp (List.mem_of_mem_take hmem))
      simp [ha] at hfa
    · rfl
  · simp only [manage_local_backups]
    split_ifs
    · exact removeLoop_count_le _ _ _ _
    · exact removeLoop_count_le _ _ _ _
    · exact Nat.le_refl _

/-- Witness for C10: a non-archive file survives a full purge (`M = 0`). -/
theorem C10_witness :
    (manage_local_backups (fun _ => true) ["a.tar.gz", "notes.txt"] 0).count "notes.txt"
      = ["a.tar.gz", "notes.txt"].count "notes.txt" :=
  (C10_local_retention_frame (fun _ => true) ["a.tar.gz", "notes.txt"] 0 "notes.txt").1
    (by decide)

/-! ### Claim C9 -/

/-- Claim C9: the Local Retention Enforcer is idempotent: applying it twice
in a row with the same maximum count `M` (deletions effective) leaves the
directory exactly as after the first application — the second application
deletes nothing. -/
theorem C9_local_retention_idempotent (fs : List String) (M : Nat) :
    manage_local_backups (fun _ => true) (manage_local_backups (fun _ => true) fs M) M
      = manage_local_backups (fun _ => true) fs M := by
  by_cases hM : M = 0
  · subst hM
    have hcount : ∀ a, (manage_local_backups (fun _ => true) fs 0).count a
        = fs.count a - (fs.filter endsWithTgz).count a := by
      intro a
      simp only [manage_local_backups, eq_self_iff_true, if_true]
      rw [removeLoop_true_count, count_sortStr]
    have hfil : (manage_local_backups (fun _ => true) fs 0).filter endsWithTgz = [] := by
      apply eq_nil_of_count_zero
      intro a
      rw [count_filter_eq]
      by_cases hpa : endsWithTgz a
      · rw [if_pos hpa, hcount a, count_filter_eq, if_pos hpa]
        omega
      · rw [if_neg hpa]
    calc manage_local_backups (fun _ => true) (manage_local_backups (fun _ => true) fs 0) 0
        = removeLoop (fun _ => true)
            (sortStr ((manage_local_backups (fun _ => true) fs 0).filter endsWithTgz))
            (manage_local_backups (fun _ => true) fs 0) := by
          simp only [manage_local_backups, eq_self_iff_true, if_true]
      _ = manage_local_backups (fun _ => true) fs 0 := by rw [hfil]; rfl
  · by_cases h2 : M < (sortStr (fs.filter endsWithTgz)).length
    · have e1 : manage_local_backups (fun _ => true) fs M
          = removeLoop (fun _ => true)
              ((sortStr (fs.filter endsWithTgz)).take
                ((sortStr (fs.filter endsWithTgz)).length - M)) fs := by
        simp only [manage_local_backups, if_neg hM, if_pos h2]
      have hfR : (manage_local_backups (fun _ => true) fs M).filter endsWithTgz
          = removeLoop (fun _ => true)
              ((sortStr (fs.filter endsWithTgz)).take
                ((sortStr (fs.filter endsWithTgz)).length - M))
              (fs.filter endsWithTgz) := by
        rw [e1]
        apply filter_removeLoop_true
        intro d hd
        exact List.of_mem_filter (mem_sortStr.mp (List.mem_of_mem_take hd))
      have hlenT : (sortStr (fs.filter endsWithTgz)).length
          = (fs.filter endsWithTgz).length := length_sortStr _
      have htake : (((sortStr (fs.filter endsWithTgz)).take
          ((sortStr (fs.filter endsWithTgz)).length - M))).length
          = (sortStr (fs.filter endsWithTgz)).length - M := by
        rw [List.length_take]
        omega
      have hlen : ((manage_local_backups (fun _ => true) fs M).filter endsWithTgz).length
          = M := by
        rw [hfR, removeLoop_true_length]
        · rw [htake]
          omega
        · intro a
          calc ((sortStr (fs.filter endsWithTgz)).take
                ((sortStr (fs.filter endsWithTgz)).length - M)).count a
              ≤ (sortStr (fs.filter endsWithTgz)).count a := count_take_le _ _ _
            _ = (fs.filter endsWithTgz).count a := count_sortStr _ _
      have hcond : ¬ (M < (sortStr ((manage_local_backups (fun _ => true) fs M).filter
          endsWithTgz)).length) := by
        rw [length_sortStr, hlen]
        omega
      conv_lhs => rw [manage_local_backups]
      simp only [if_neg hM, if_neg hcond]
    · have e1 : manage_local_backups (fun _ => true) fs M = fs := by
        simp only [manage_local_backups, if_neg hM, if_neg h2]
      rw [e1, e1]

/-! ### Field lemmas for `process_backup_config` -/

theorem process_weeklyRan_eq (env : Env) (now : DT) (cfg : String)
    (maxLocal dRet wRet mRet : Nat) (s0 : St) :
    (process_backup_config env now cfg maxLocal dRet wRet mRet s0).weeklyRan
      = ((env.tarballOk && env.dailyUploadOk) && (pyWeekday now == 6)) := by
  have h : (process_backup_config env now cfg maxLocal dRet wRet mRet s0).weeklyRan
      = ((dailyPhase env (get_backup_filename "daily" cfg now) dRet
            (preDaily env maxLocal s0)).2
          && (pyWeekday now == 6)) := rfl
  rw [h, dailyPhase_snd]

theorem process_monthlyRan_eq (env : Env) (now : DT) (cfg : String)
    (maxLocal dRet wRet mRet : Nat) (s0 : St) :
    (process_backup_config env now cfg maxLocal dRet wRet mRet s0).monthlyRan
      = ((env.tarballOk && env.dailyUploadOk) && (now.day == 1)) := by
  have h : (process_backup_config env now cfg maxLocal dRet wRet mRet s0).monthlyRan
      = ((dailyPhase env (get_backup_filename "daily" cfg now) dRet
            (preDaily env maxLocal s0)).2
          && (now.day == 1)) := rfl
  rw [h, dailyPhase_snd]

/-! ### Claim C1 -/

/-- Claim C1: in every job execution in which the daily tarball is built but
the daily transfer returns failure, the daily archive is still in the local
staging directory when the job finishes — for every configured
`max_local_backups` value and every other oracle — and the only
emitted outcome of the job is "failure" (never "success"). -/
theorem C1_transfer_failure_keeps_local (env : Env) (now : DT) (cfg : String)
    (maxLocal dRet wRet mRet : Nat) (s0 : St)
    (hT : env.tarballOk = true) (hU : env.dailyUploadOk = false) :
    get_backup_filename "daily" cfg now
        ∈ (process_backup_config env now cfg maxLocal dRet wRet mRet s0).st.fs
    ∧ (process_backup_config env now cfg maxLocal dRet wRet mRet s0).outcomes
        = ["failure"] := by
  constructor
  · simp only [process_backup_config, afterMonthly, afterWeekly, preDaily, dailyPhase_snd,
      dailyPhase, hT, hU, Bool.true_and, Bool.false_and, Bool.and_false, if_true, if_false,
      Bool.false_eq_true]
    exact mem_insertFile.mpr (Or.inr rfl)
  · simp only [process_backup_config, afterMonthly, afterWeekly, preDaily, dailyPhase_snd,
      dailyPhase, hT, hU, Bool.true_and, Bool.false_and, Bool.and_false, if_true, if_false,
      Bool.false_eq_true]

/-- Witness for C1: concrete failing upload on a Tuesday with empty initial
state. -/
theorem C1_witness :
    get_backup_filename "daily" "c" dtTuesday
        ∈ (process_backup_config { allOkEnv with dailyUploadOk := false } dtTuesday "c"
            0 7 4 12 emptySt).st.fs
    ∧ (process_backup_config { allOkEnv with dailyUploadOk := false } dtTuesday "c"
        0 7 4 12 emptySt).outcomes = ["failure"] :=
  C1_transfer_failure_keeps_local { allOkEnv with dailyUploadOk := false } dtTuesday "c"
    0 7 4 12 emptySt rfl rfl

/-! ### Claim C7 -/

/-- Claim C7: whenever the daily build and the daily upload succeed, the job
outcome is "success", regardless of the outcome of every weekly or monthly
derivation, upload, retention or cleanup call inside those blocks (all their
oracles are universally quantified here); no later failure demotes the job
outcome.  The only step after a successful daily upload that is not covered
by a `try` block is the final local cleanup remove, which is required not to
raise (`cleanupRemoveOk`; see C4 for what happens when it does). -/
theorem C7_daily_success_dominates (env : Env) (now : DT) (cfg : String)
    (maxLocal dRet wRet mRet : Nat) (s0 : St)
    (hT : env.tarballOk = true) (hU : env.dailyUploadOk = true)
    (hC : env.cleanupRemoveOk = true) :
    (process_backup_config env now cfg maxLocal dRet wRet mRet s0).outcomes = ["success"]
    ∧ (process_backup_config env now cfg maxLocal dRet wRet mRet s0).crashed = false := by
  simp only [process_backup_config, dailyPhase_snd, hT, hU, hC, Bool.and_self, Bool.true_and,
    if_true]
  split_ifs <;> exact ⟨rfl, rfl⟩

/-- Witness for C7: weekly upload and both retention listings fail on a
Sunday, yet the outcome is "success". -/
theorem C7_witness :
    (process_backup_config
        { allOkEnv with weeklyUploadOk := false, wRetLsfOk := false, mRetLsfOk := false }
        dtSunday "c" 0 7 4 12 emptySt).outcomes = ["success"]
    ∧ (process_backup_config
        { allOkEnv with weeklyUploadOk := false, wRetLsfOk := false, mRetLsfOk := false }
        dtSunday "c" 0 7 4 12 emptySt).crashed = false :=
  C7_daily_success_dominates
    { allOkEnv with weeklyUploadOk := false, wRetLsfOk := false, mRetLsfOk := false }
    dtSunday "c" 0 7 4 12 emptySt rfl rfl rfl

/-! ### Stage lemmas for the weekly/monthly rotation -/

theorem afterWeekly_monthly (env : Env) (now : DT) (cfg : String)
    (maxLocal dRet wRet : Nat) (s0 : St) :
    (afterWeekly env now cfg maxLocal dRet wRet s0).monthly = s0.monthly := by
  simp only [afterWeekly]
  split_ifs
  · rw [weeklyStep_monthly, dailyPhase_monthly]
    rfl
  · rw [dailyPhase_monthly]
    rfl

theorem mem_afterWeekly_fs {env : Env} {now : DT} {cfg : String}
    {maxLocal dRet wRet : Nat} {s0 : St} {a : String}
    (h : a ∈ (afterWeekly env now cfg maxLocal dRet wRet s0).fs) :
    a ∈ s0.fs ∨ a = get_backup_filename "daily" cfg now
      ∨ a = get_backup_filename "weekly" cfg now := by
  simp only [afterWeekly] at h
  split_ifs at h
  · rcases mem_weeklyStep_fs h with h2 | h2
    · rcases mem_dailyPhase_fs h2 with h3 | h3
      · exact Or.inl (mem_manage_local_sub h3)
      · exact Or.inr (Or.inl h3)
    · exact Or.inr (Or.inr h2)
  · rcases mem_dailyPhase_fs h with h3 | h3
    · exact Or.inl (mem_manage_local_sub h3)
    · exact Or.inr (Or.inl h3)

theorem afterMonthly_snd_cases (env : Env) (now : DT) (cfg : String)
    (maxLocal dRet wRet mRet : Nat) (s0 : St) :
    (afterMonthly env now cfg maxLocal dRet wRet mRet s0).2 = none
    ∨ ((afterMonthly env now cfg maxLocal dRet wRet mRet s0).2
        = some (sortStr (afterWeekly env now cfg maxLocal dRet wRet s0).weekly)
      ∧ (afterMonthly env now cfg maxLocal dRet wRet mRet s0).1
        = monthlyCore env (get_backup_filename "monthly" cfg now) mRet
            (sortStr (afterWeekly env now cfg maxLocal dRet wRet s0).weekly)
            (afterWeekly env now cfg maxLocal dRet wRet s0)) := by
  simp only [afterMonthly, monthlyStep]
  split_ifs
  · exact Or.inr ⟨rfl, rfl⟩
  · exact Or.inl rfl
  · exact Or.inl rfl

/-! ### Claim C3 -/

/-- Claim C3 counterexample: the claim quantifies over every job execution,
but when the daily transfer fails the weekly block is skipped even on a
Sunday, so "weekly derivation executes iff the day is Sunday" is false. -/
theorem C3_counterexample :
    pyWeekday dtSunday = 6
    ∧ (process_backup_config { allOkEnv with dailyUploadOk := false } dtSunday "c" 3 7 4 12
        emptySt).weeklyRan = false :=
  ⟨by decide, by decide⟩

/-- Claim C3 (amended: in job executions whose daily build and upload
succeed): weekly derivation executes iff the current day is Sunday
(`weekday() == 6`), monthly derivation executes iff the day-of-month is 1,
and when the weekly-tier listing of the monthly block is empty it produces no
monthly artifact (neither locally nor in the monthly tier) and raises no
error — the block simply falls through. -/
theorem C3_boundary_gating (env : Env) (now : DT) (cfg : String)
    (maxLocal dRet wRet mRet : Nat) (s0 : St)
    (hT : env.tarballOk = true) (hU : env.dailyUploadOk = true) :
    ((process_backup_config env now cfg maxLocal dRet wRet mRet s0).weeklyRan = true
        ↔ pyWeekday now = 6)
    ∧ ((process_backup_config env now cfg maxLocal dRet wRet mRet s0).monthlyRan = true
        ↔ now.day = 1)
    ∧ ((process_backup_config env now cfg maxLocal dRet wRet mRet s0).monthlyListing = some []
        → get_backup_filename "monthly" cfg now ∉ s0.fs
        → (get_backup_filename "monthly" cfg now
              ∉ (process_backup_config env now cfg maxLocal dRet wRet mRet s0).st.fs
          ∧ (process_backup_config env now cfg maxLocal dRet wRet mRet s0).st.monthly
              = s0.monthly)) := by
  refine ⟨?_, ?_, ?_⟩
  · rw [process_weeklyRan_eq, hT, hU]
    simp
  · rw [process_monthlyRan_eq, hT, hU]
    simp
  · intro hlist hfresh
    have hml : (process_backup_config env now cfg maxLocal dRet wRet mRet s0).monthlyListing
        = (afterMonthly env now cfg maxLocal dRet wRet mRet s0).2 := rfl
    rw [hml] at hlist
    rcases afterMonthly_snd_cases env now cfg maxLocal dRet wRet mRet s0 with hc | ⟨hc1, hc2⟩
    · rw [hc] at hlist
      exact absurd hlist (by simp)
    · rw [hc1] at hlist
      have hempty : sortStr (afterWeekly env now cfg maxLocal dRet wRet s0).weekly = [] := by
        simpa using hlist
      have hpm1 : (afterMonthly env now cfg maxLocal dRet wRet mRet s0).1
          = afterWeekly env now cfg maxLocal dRet wRet s0 := by
        rw [hc2, hempty, monthlyCore_nil]
      have hmem : ∀ x, x ∈ (process_backup_config env now cfg maxLocal dRet wRet mRet s0).st.fs
          → x ∈ (afterMonthly env now cfg maxLocal dRet wRet mRet s0).1.fs := by
        intro x hx
        simp only [process_backup_config] at hx
        split_ifs at hx
        · exact List.mem_of_mem_erase hx
        · exact hx
        · exact hx
        · exact hx
      have hmon : (process_backup_config env now cfg maxLocal dRet wRet mRet s0).st.monthly
          = (afterMonthly env now cfg maxLocal dRet wRet mRet s0).1.monthly := by
        simp only [process_backup_config]
        split_ifs
        · rfl
        · rfl
        · rfl
        · rfl
      constructor
      · intro hmm
        have hx := hmem _ hmm
        rw [hpm1] at hx
        rcases mem_afterWeekly_fs hx with h3 | h3 | h3
        · exact hfresh h3
        · exact gbf_daily_ne_monthly cfg now h3.symm
        · exact gbf_weekly_ne_monthly cfg now h3.symm
      · rw [hmon, hpm1, afterWeekly_monthly]

/-- Witness for the amended C3: the 1st of a month that is not a Sunday,
with an empty weekly tier (so the monthly listing is empty). -/
theorem C3_witness :
    ((process_backup_config allOkEnv dtDec1 "c" 0 7 4 12 emptySt).weeklyRan = true
        ↔ pyWeekday dtDec1 = 6)
    ∧ get_backup_filename "monthly" "c" dtDec1
        ∉ (process_backup_config allOkEnv dtDec1 "c" 0 7 4 12 emptySt).st.fs := by
  have h := C3_boundary_gating allOkEnv dtDec1 "c" 0 7 4 12 emptySt rfl rfl
  exact ⟨h.1, (h.2.2 (by decide) (by decide)).1⟩

/-! ### Claim C4 -/

theorem process_outcome_shape (env : Env) (now : DT) (cfg : String)
    (maxLocal dRet wRet mRet : Nat) (s0 : St) (hC : env.cleanupRemoveOk = true) :
    (process_backup_config env now cfg maxLocal dRet wRet mRet s0).outcomes.length = 1
    ∧ (process_backup_config env now cfg maxLocal dRet wRet mRet s0).crashed = false := by
  simp only [process_backup_config]
  split_ifs <;> simp_all

/-- Claim C4 counterexample: a job whose success-path cleanup `os.remove`
raises (source line 391, outside every `try`) emits no Job Outcome at all,
and the exception escapes `process_backup_config` into the loop of `main`, which
has no handler — the second job is never reached.  So neither "exactly one
terminal Job Outcome per job" nor "the runner proceeds to the next job"
holds as stated. -/
theorem C4_counterexample :
    runJobs [⟨true, { allOkEnv with cleanupRemoveOk := false }, dtTuesday, "a", 0, 7, 4, 12,
        emptySt⟩,
      ⟨true, allOkEnv, dtTuesday, "b", 0, 7, 4, 12, emptySt⟩]
      = ([[]], 1) := by decide

/-- Claim C4 (amended: provided the success-path local cleanup removal of no job
raises): every job reached emits exactly one terminal Job Outcome — an
invalid configuration yields an immediate failure outcome, and every error
inside the build/upload and weekly/monthly phases is absorbed into the
single outcome of the job — and the runner reaches every job in the list. -/
theorem C4_one_outcome_per_job (jobs : List JobSpec)
    (h : ∀ j ∈ jobs, j.env.cleanupRemoveOk = true) :
    (runJobs jobs).1.length = jobs.length
    ∧ (∀ o ∈ (runJobs jobs).1, o.length = 1)
    ∧ (runJobs jobs).2 = jobs.length := by
  induction jobs with
  | nil => exact ⟨rfl, by simp [runJobs], rfl⟩
  | cons j rest ih =>
    have hj := h j (List.mem_cons_self j rest)
    obtain ⟨ih1, ih2, ih3⟩ := ih (fun x hx => h x (List.mem_cons_of_mem j hx))
    obtain ⟨hlen, hcr⟩ := process_outcome_shape j.env j.now j.cfg j.maxLocal j.dRet j.wRet
      j.mRet j.start hj
    simp only [runJobs]
    by_cases hv : j.valid = true
    · rw [if_pos hv, hcr]
      simp only [Bool.false_eq_true, if_false]
      refine ⟨by simp [ih1], ?_, by simp [ih3]⟩
      intro o ho
      rcases List.mem_cons.mp ho with rfl | ho2
      · exact hlen
      · exact ih2 o ho2
    · rw [if_neg hv]
      refine ⟨by simp [ih1], ?_, by simp [ih3]⟩
      intro o ho
      rcases List.mem_cons.mp ho with rfl | ho2
      · rfl
      · exact ih2 o ho2

/-- Witness for the amended C4: a valid job followed by an invalid one, all
cleanup removals succeeding: two jobs reached, one outcome each. -/
theorem C4_witness :
    (runJobs [⟨true, allOkEnv, dtTuesday, "a", 0, 7, 4, 12, emptySt⟩,
        ⟨false, allOkEnv, dtTuesday, "b", 0, 7, 4, 12, emptySt⟩]).1.length = 2
    ∧ (runJobs [⟨true, allOkEnv, dtTuesday, "a", 0, 7, 4, 12, emptySt⟩,
        ⟨false, allOkEnv, dtTuesday, "b", 0, 7, 4, 12, emptySt⟩]).2 = 2 := by
  have h := C4_one_outcome_per_job
    [⟨true, allOkEnv, dtTuesday, "a", 0, 7, 4, 12, emptySt⟩,
     ⟨false, allOkEnv, dtTuesday, "b", 0, 7, 4, 12, emptySt⟩] (by decide)
  exact ⟨h.1, h.2.2⟩

/-! ### Claim C6 -/

/-- Claim C6 counterexample: the claim says the deletion of each stale entry is
retried by the Remote Operation Client (3 bounded attempts), but
`manage_backups_by_count` calls `run_command` directly: with an
always-failing delete, the stale entry "a.tar.gz" receives exactly one
attempt (and survives), whereas the retrying client would make 3 attempts
for a failing operation. -/
theorem C6_counterexample :
    (manage_backups_by_count true (fun _ => false) ["a.tar.gz", "b.tar.gz"] 1).2.count
        "a.tar.gz" = 1
    ∧ (manage_backups_by_count true (fun _ => false) ["a.tar.gz", "b.tar.gz"] 1).1
        = ["a.tar.gz", "b.tar.gz"]
    ∧ rclone_operation_attempts (fun _ => false) 3 0 = 3
    ∧ (1 : Nat) ≠ 3 :=
  ⟨by decide, by decide, by decide, by decide⟩

/-- Claim C6 (amended): during count-based remote retention each stale
entry receives exactly one un-retried `deletefile` attempt, in oldest-first
order, regardless of earlier failures (so one failed deletion never stops
the rest of the pass); an entry disappears iff it was stale and its single
attempt succeeded; and deletion outcomes never affect the terminal
status of the job — an outcome is "failure" iff its daily build or upload failed,
whatever every deletion oracle returns. -/
theorem C6_deletion_single_attempt_tolerated (tier : List String) (K : Nat)
    (delOk : String → Bool) (hs : List.Sorted strLt tier) :
    (manage_backups_by_count true delOk tier K).2 = pySliceUpToNeg tier K
    ∧ (∀ a, a ∈ (manage_backups_by_count true delOk tier K).1 ↔
        (a ∈ tier ∧ (a ∉ pySliceUpToNeg tier K ∨ delOk a = false)))
    ∧ (∀ env now cfg maxLocal dRet wRet mRet s0,
        ((process_backup_config env now cfg maxLocal dRet wRet mRet s0).outcomes = ["failure"]
          ↔ (env.tarballOk = false ∨ env.dailyUploadOk = false))) := by
  have hst : sortStr tier = tier := sortStr_eq_of_sorted hs
  have hnd : tier.Nodup := nodup_of_sorted_lt hs
  have hsl0 : ¬ K < tier.length → pySliceUpToNeg tier K = [] := by
    intro h
    simp only [pySliceUpToNeg]
    by_cases hK : K = 0
    · rw [if_pos hK]
    · rw [if_neg hK]
      have h0 : tier.length - K = 0 := by omega
      rw [h0, List.take_zero]
  refine ⟨?_, ?_, ?_⟩
  · simp only [manage_backups_by_count, if_true, hst]
    by_cases h : K < tier.length
    · rw [if_pos h]
    · rw [if_neg h, hsl0 h]
  · intro a
    simp only [manage_backups_by_count, if_true, hst]
    by_cases h : K < tier.length
    · rw [if_pos h]
      exact mem_deleteLoopR delOk _ tier hnd a
    · rw [if_neg h, hsl0 h]
      simp
  · intro env now cfg maxLocal dRet wRet mRet s0
    simp only [process_backup_config, dailyPhase_snd]
    cases hT : env.tarballOk <;> cases hU : env.dailyUploadOk <;>
      simp only [hT, hU, Bool.true_and, Bool.false_and, Bool.and_false, Bool.and_true,
        Bool.false_eq_true, if_false, if_true] <;>
      first
        | (split_ifs <;> simp)
        | simp

/-- Witness for the amended C6: a sorted two-entry tier with `K = 1` and an
always-failing delete oracle: the single stale entry is attempted (the
attempt list is exactly the stale prefix) and survives the pass. -/
theorem C6_witness :
    (manage_backups_by_count true (fun _ => false) ["c.tar.gz", "d.tar.gz"] 1).2
      = pySliceUpToNeg ["c.tar.gz", "d.tar.gz"] 1
    ∧ "c.tar.gz" ∈ (manage_backups_by_count true (fun _ => false) ["c.tar.gz", "d.tar.gz"] 1).1 := by
  have h := C6_deletion_single_attempt_tolerated ["c.tar.gz", "d.tar.gz"] 1 (fun _ => false)
    (by decide)
  exact ⟨h.1, (h.2.1 "c.tar.gz").mpr (by decide)⟩
